/-
Verification of the pdf-png-converter repository (src/main.py) against its
natural-language specification.

The program's core logic is embedded shallowly:
 * strings are `List Char` (Python `str` over ASCII inputs);
 * `os.path.basename` / `os.path.splitext` / `os.path.join` are modelled
   directly on character lists (POSIX separator `/`);
 * the sort key of `natural_sort_key` (main.py lines 9-15) is a list of
   typed tokens (`Tok`), mirroring Python's mixed `int`/`str` key lists,
   and Python's list comparison — which raises `TypeError` on an
   `int`-vs-`str` comparison — is modelled by an `Option Ordering`
   valued comparison that returns `none` exactly in that case;
 * external collaborators (PyMuPDF rendering/placement, `os.path.isfile`,
   `os.path.exists`) are oracles passed as function parameters;
 * the `__main__` orchestration (scan, mode decision, sort-with-fallback,
   output naming, conflict loop, conversion, summary) is embedded as a
   pure function `mainRun` returning a record of its observable behaviour.
-/
import Mathlib

set_option maxRecDepth 10000

/-- A typed sort-key token: Python's `int(text) if text.isdigit() else text.lower()`
produces either an `int` or a `str` entry in the key list. -/
inductive Tok where
  | str : List Char → Tok
  | num : Nat → Tok
deriving DecidableEq, Repr

/-- Model of `os.path.basename` (POSIX): the part of the path after the last `/`. -/
def basenameChars (cs : List Char) : List Char :=
  (cs.reverse.takeWhile (fun c => c ≠ '/')).reverse

/-- Model of `os.path.join(dir, name)` for a simple directory prefix. -/
def joinPath (dir name : List Char) : List Char := dir ++ '/' :: name

/-- Model of `os.path.splitext` on a bare file name: split off the last
extension, except that a dot-run at the very start of the name never starts
an extension (CPython behaviour: `splitext(".png") = (".png", "")`). -/
def splitExtChars (cs : List Char) : List Char × List Char :=
  let extRev := cs.reverse.takeWhile (fun c => c ≠ '.')
  if extRev.length = cs.length then (cs, [])
  else
    let stem := cs.take (cs.length - extRev.length - 1)
    if stem.any (fun c => c ≠ '.') then (stem, '.' :: extRev.reverse)
    else (cs, [])

/-- Model of Python `str.lower` (ASCII). -/
def lowerAll (cs : List Char) : List Char := cs.map Char.toLower

/-- Value of a digit run, as Python `int(text)` computes it. -/
def toNatDigits (cs : List Char) : Nat :=
  cs.foldl (fun acc c => acc * 10 + (c.toNat - '0'.toNat)) 0

/-- Model of Python `text.isdigit()` (ASCII): nonempty and all digits. -/
def pyIsDigit (cs : List Char) : Bool := !cs.isEmpty && cs.all Char.isDigit

/-- Fuel-bounded worker for `reSplitDigits` (structural recursion on the
fuel, so that the kernel can evaluate it on concrete inputs). -/
def reSplitAux : Nat → List Char → List (List Char)
  | 0, cs => [cs.takeWhile (fun c => !c.isDigit)]
  | fuel + 1, cs =>
    if cs.dropWhile (fun c => !c.isDigit) = [] then
      [cs.takeWhile (fun c => !c.isDigit)]
    else
      cs.takeWhile (fun c => !c.isDigit)
        :: (cs.dropWhile (fun c => !c.isDigit)).takeWhile Char.isDigit
        :: reSplitAux fuel ((cs.dropWhile (fun c => !c.isDigit)).dropWhile Char.isDigit)

/-- Model of `re.split(r'(\d+)', s)`: split `s` at the boundaries of maximal
digit runs, keeping the (captured) digit runs; the result alternates
possibly-empty non-digit pieces with nonempty digit pieces, starting and
ending with a non-digit piece. The fuel `cs.length + 1` always suffices,
since each round consumes at least one character. -/
def reSplitDigits (cs : List Char) : List (List Char) :=
  reSplitAux (cs.length + 1) cs

/-- The per-piece mapping in `natural_sort_key`'s list comprehension:
`int(text) if text.isdigit() else text.lower()`. -/
def pyTok (t : List Char) : Tok :=
  if pyIsDigit t then Tok.num (toNatDigits t) else Tok.str (lowerAll t)

/-- The sort key on a character list (before `basename` is applied). -/
def splitKeyChars (cs : List Char) : List Tok :=
  (reSplitDigits cs).map pyTok

/-- main.py lines 9-15: `natural_sort_key(s)` — tokenized key of
`os.path.basename(s)` (note: the extension is NOT stripped). -/
def natural_sort_key (s : List Char) : List Tok :=
  splitKeyChars (basenameChars s)

/-- Lexicographic comparison of character lists by code point
(Python `str` comparison). -/
def cmpChars : List Char → List Char → Ordering
  | [], [] => Ordering.eq
  | [], _ :: _ => Ordering.lt
  | _ :: _, [] => Ordering.gt
  | a :: as, b :: bs =>
    match compare a.toNat b.toNat with
    | Ordering.eq => cmpChars as bs
    | o => o

/-- Comparison of two key tokens; `none` models Python's `TypeError` on an
`int`-vs-`str` comparison. -/
def tokCmp : Tok → Tok → Option Ordering
  | Tok.str a, Tok.str b => some (cmpChars a b)
  | Tok.num a, Tok.num b => some (compare a b)
  | _, _ => none

/-- Comparison of two key token lists, as Python compares key lists
elementwise with a shorter strict prefix comparing smaller; propagates
`none` (a raised `TypeError`) from any element comparison it performs. -/
def keyCmp : List Tok → List Tok → Option Ordering
  | [], [] => some Ordering.eq
  | [], _ :: _ => some Ordering.lt
  | _ :: _, [] => some Ordering.gt
  | a :: as, b :: bs =>
    match tokCmp a b with
    | none => none
    | some Ordering.eq => keyCmp as bs
    | some o => some o

/-- The boolean "less or equal" on paths induced by `natural_sort_key`,
as the stable `sorted(..., key=natural_sort_key)` call uses it (keep the
left element unless the right key is strictly smaller). The `none` branch
is arbitrary: it is proved unreachable. -/
def natLe (a b : List Char) : Bool :=
  match keyCmp (natural_sort_key a) (natural_sort_key b) with
  | some Ordering.gt => false
  | _ => true

/-- Stable insertion of `a` into `l`: `a` goes in front of the first
element `b` with `le a b`. -/
def orderedInsertLe (le : List Char → List Char → Bool) (a : List Char) :
    List (List Char) → List (List Char)
  | [] => [a]
  | b :: l => if le a b then a :: b :: l else b :: orderedInsertLe le a l

/-- Stable insertion sort; for a total transitive `le` this produces the
same output as Python's stable `sorted` (each element is placed before all
strictly greater elements and before later elements with an equal key). -/
def insertionSortLe (le : List Char → List Char → Bool) :
    List (List Char) → List (List Char)
  | [] => []
  | a :: l => orderedInsertLe le a (insertionSortLe le l)

/-- main.py line 161 inside the `try`: `sorted(image_paths_unsorted,
key=natural_sort_key)`. Returns `none` when the sort would raise, i.e. when
some key comparison is between an `int` token and a `str` token. -/
def trySortNat (files : List (List Char)) : Option (List (List Char)) :=
  if files.all (fun a => files.all (fun b =>
      (keyCmp (natural_sort_key a) (natural_sort_key b)).isSome)) then
    some (insertionSortLe natLe files)
  else
    none

/-- main.py lines 158-168: the try/except around the sort — on success use
the sorted list, on any error fall back to the unsorted scan order. -/
def sortWithFallback (trySort : List (List Char) → Option (List (List Char)))
    (files : List (List Char)) : List (List Char) :=
  match trySort files with
  | some sortedList => sortedList
  | none => files

/-- main.py line 173 as written: `re.sub(r'[_-]?\\d+$', '', base)`. Inside a
raw string `\\d` is a literal backslash followed by `d`, so the pattern
matches "optional `_` or `-`, a literal backslash, then one or more letter
`d` characters, at the end of the string". -/
def stripCodeSuffix (s : List Char) : List Char :=
  let rev := s.reverse
  let ds := rev.takeWhile (fun c => c = 'd')
  if ds.isEmpty then s
  else
    match rev.drop ds.length with
    | '\\' :: rest =>
      match rest with
      | c :: rest2 => if c = '_' ∨ c = '-' then rest2.reverse else (c :: rest2).reverse
      | [] => []
    | _ => s

/-- Modelled from the spec: "strip a trailing run matching '(optional single
`_` or `-`) + digits' from the end of that base name" — the behaviour the
intended pattern would have. The source's line 173 as written does not
implement this; compare `stripCodeSuffix`. -/
def stripSpecTrailingNumber (s : List Char) : List Char :=
  let rev := s.reverse
  let ds := rev.takeWhile Char.isDigit
  if ds.isEmpty then s
  else
    match rev.drop ds.length with
    | c :: rest =>
      if c = '_' ∨ c = '-' then rest.reverse else (c :: rest).reverse
    | [] => []

/-- main.py lines 170-175: derive the output name from the first entry of
the resolved image order (basename, extension stripped, the line-173
substitution applied, with fallback literal `combined`). -/
def outputStem (image_paths : List (List Char)) : List Char :=
  let first_image_name := basenameChars (image_paths.headD [])
  let first_image_base := (splitExtChars first_image_name).1
  let p := stripCodeSuffix first_image_base
  if p.isEmpty then "combined".toList else p

/-- The candidate output file names of the conflict-avoidance loop:
`<base>.pdf` for attempt 0, `<base>_k.pdf` for attempt `k ≥ 1`
(main.py lines 179-183). -/
def pdfName (base : List Char) (k : Nat) : List Char :=
  if k = 0 then base ++ ".pdf".toList
  else base ++ "_".toList ++ (toString k).toList ++ ".pdf".toList

/-- main.py lines 179-184: `while os.path.exists(path): path = base_count.pdf;
count += 1`, with the path variable expressed as `pdfName base k` for the
attempt counter `k` (the source's `count - 1`). `ex` is the
`os.path.exists` oracle; `fuel` bounds the unbounded source loop. -/
def conflictLoop (ex : List Char → Bool) (base : List Char) :
    Nat → Nat → Option (List Char)
  | 0, _ => none
  | fuel + 1, k =>
    if ex (pdfName base k) then conflictLoop ex base fuel (k + 1)
    else some (pdfName base k)

/-- The operation modes decided from the folder content. -/
inductive Mode where
  | documentToImages
  | imagesToDocument
  | invalid
deriving DecidableEq, Repr

/-- main.py lines 139, 152, 191: the mode decision from the two counts
(`num_pdf >= 1 and num_png == 0` → PDF→PNG; `num_png > 1 and num_pdf == 0`
→ PNG→PDF; anything else → invalid). -/
def selectMode (num_pdf num_png : Nat) : Mode :=
  if 1 ≤ num_pdf ∧ num_png = 0 then Mode.documentToImages
  else if 1 < num_png ∧ num_pdf = 0 then Mode.imagesToDocument
  else Mode.invalid

/-- main.py lines 115-127: scan the non-recursive listing, keep regular
files (`isFile` oracle on the joined path), classify by lower-cased
extension of the file name, collect the joined paths into
`(pdf_files, png_files)`. -/
def scanFolder (target : List Char) (isFile : List Char → Bool)
    (listing : List (List Char)) : List (List Char) × List (List Char) :=
  let files := listing.filter (fun fn => isFile (joinPath target fn))
  ((files.filter (fun fn => lowerAll (splitExtChars fn).2 = ".pdf".toList)).map
      (joinPath target),
   (files.filter (fun fn => lowerAll (splitExtChars fn).2 = ".png".toList)).map
      (joinPath target))

/-- Fuel-bounded worker for `specTokens`. -/
def specTokensAux : Nat → List Char → List Tok
  | 0, cs => [Tok.str (lowerAll (cs.takeWhile (fun c => !c.isDigit)))]
  | fuel + 1, cs =>
    if cs.dropWhile (fun c => !c.isDigit) = [] then
      [Tok.str (lowerAll (cs.takeWhile (fun c => !c.isDigit)))]
    else
      Tok.str (lowerAll (cs.takeWhile (fun c => !c.isDigit)))
        :: Tok.num (toNatDigits
              ((cs.dropWhile (fun c => !c.isDigit)).takeWhile Char.isDigit))
        :: specTokensAux fuel ((cs.dropWhile (fun c => !c.isDigit)).dropWhile Char.isDigit)

/-- The token sequence described by spec section 4.2, written as a direct
tokenizer: split into alternating non-digit and digit runs, convert each
digit run to its integer value, compare each non-digit run
case-insensitively (modelled by lower-casing). -/
def specTokens (cs : List Char) : List Tok :=
  specTokensAux (cs.length + 1) cs

/-- The sort key as spec section 4.2 words it: both the directory part AND
the extension are stripped before tokenizing (claim C4's reading; the
source keeps the extension). -/
def spec_sort_key (s : List Char) : List Tok :=
  specTokens (splitExtChars (basenameChars s)).1

/-- Whether a token is a text token. -/
def isStrTok : Tok → Bool
  | Tok.str _ => true
  | Tok.num _ => false

/-- `altFrom b K`: the token list `K` alternates between text tokens
(when the expected flag `b` is `true`) and integer tokens. `altFrom true K`
says text tokens sit at even positions and integer tokens at odd ones. -/
def altFrom : Bool → List Tok → Bool
  | _, [] => true
  | b, t :: rest => (isStrTok t == b) && altFrom (!b) rest

/-- Result of `convert_png_to_pdf` (main.py lines 43-81): the pages placed
(by source path, in order), the warnings recorded (basenames of skipped
files), whether `doc.save` ran, and the returned success flag. -/
structure PngConvResult where
  pages : List (List Char)
  warnings : List (List Char)
  saved : Bool
  success : Bool
deriving DecidableEq, Repr

/-- main.py lines 48-61: the per-image loop. `placeOk` is the oracle for
"opening the image and inserting it onto a new page succeeded"; a failing
image is skipped and its basename recorded as a warning. -/
def placePages (placeOk : List Char → Bool) :
    List (List Char) → List (List Char) × List (List Char)
  | [] => ([], [])
  | img :: rest =>
    let r := placePages placeOk rest
    if placeOk img then (img :: r.1, r.2)
    else (r.1, basenameChars img :: r.2)

/-- main.py lines 43-81: `convert_png_to_pdf(image_paths, output_pdf_path)` —
place each image independently, then save only if at least one page exists
(`if len(doc) > 0`), returning `True` exactly in that case. -/
def convert_png_to_pdf (placeOk : List Char → Bool)
    (image_paths : List (List Char)) : PngConvResult :=
  let r := placePages placeOk image_paths
  if 0 < r.1.length then ⟨r.1, r.2, true, true⟩
  else ⟨r.1, r.2, false, false⟩

/-- Result of `convert_pdf_to_png` (main.py lines 17-41): the image files
written and the returned success flag. -/
structure PdfConvResult where
  writes : List (List Char)
  success : Bool
deriving DecidableEq, Repr

/-- main.py lines 17-41: `convert_pdf_to_png(pdf_path, output_dir)` —
`pageCount` is the oracle for `fitz.open` (`none` means the open raised);
on success one PNG per page named `<pdf base>_<i+1>.png` is written into
`output_dir`. -/
def convert_pdf_to_png (pageCount : List Char → Option Nat)
    (pdf_path output_dir : List Char) : PdfConvResult :=
  match pageCount pdf_path with
  | none => ⟨[], false⟩
  | some n =>
    let base := (splitExtChars (basenameChars pdf_path)).1
    ⟨(List.range n).map (fun i =>
        joinPath output_dir (base ++ "_".toList ++ (toString (i + 1)).toList
          ++ ".png".toList)),
     true⟩

/-- The fixed output directory of main.py line 106. -/
def outputBaseDir : List Char := "output".toList

/-- Observable behaviour of one `__main__` run after the pre-flight checks
(argument count, directory check, `makedirs`, `listdir`) have succeeded. -/
structure RunResult where
  mode : Mode
  pdf_files : List (List Char)
  png_files : List (List Char)
  image_paths : List (List Char)
  output_pdf_path : Option (List Char)
  fileWrites : List (List Char)
  dirsCreated : List (List Char)
  diagnostics : List (List Char)
  overall_success : Bool
  processed_something : Bool
  exitCode : Nat
deriving DecidableEq, Repr

/-- main.py lines 105-221: the orchestration after a successful pre-flight.
`trySort` abstracts the line-161 `sorted` call (the source instantiates it
with the natural-sort key, modelled by `trySortNat`); `isFile`, `pageCount`,
`placeOk` and `ex` are the filesystem/library oracles; `fuel` bounds the
conflict loop. The script never calls `sys.exit` after the mode dispatch,
so every modelled run terminates with exit status 0. -/
def mainRun (trySort : List (List Char) → Option (List (List Char)))
    (target : List Char) (isFile : List Char → Bool)
    (listing : List (List Char)) (pageCount : List Char → Option Nat)
    (placeOk : List Char → Bool) (ex : List Char → Bool) (fuel : Nat) :
    RunResult :=
  let scanned := scanFolder target isFile listing
  let pdf_files := scanned.1
  let png_files := scanned.2
  let num_pdf := pdf_files.length
  let num_png := png_files.length
  if 1 ≤ num_pdf ∧ num_png = 0 then
    let results := pdf_files.map (fun p =>
      let base := (splitExtChars (basenameChars p)).1
      let out_dir := joinPath outputBaseDir (base ++ "_png".toList)
      (out_dir, convert_pdf_to_png pageCount p out_dir))
    { mode := Mode.documentToImages
      pdf_files := pdf_files
      png_files := png_files
      image_paths := []
      output_pdf_path := none
      fileWrites := (results.map (fun r => r.2.writes)).flatten
      dirsCreated := outputBaseDir ::
        (results.filterMap (fun r => if r.2.success then some r.1 else none))
      diagnostics := []
      overall_success := results.all (fun r => r.2.success)
      processed_something := true
      exitCode := 0 }
  else if 1 < num_png ∧ num_pdf = 0 then
    let image_paths := sortWithFallback trySort png_files
    let stem := outputStem image_paths
    let base := joinPath outputBaseDir stem
    let outPath := conflictLoop ex base fuel 0
    let conv := convert_png_to_pdf placeOk image_paths
    { mode := Mode.imagesToDocument
      pdf_files := pdf_files
      png_files := png_files
      image_paths := image_paths
      output_pdf_path := outPath
      fileWrites := if conv.saved then [outPath.getD []] else []
      dirsCreated := [outputBaseDir]
      diagnostics := []
      overall_success := conv.success
      processed_something := true
      exitCode := 0 }
  else
    { mode := Mode.invalid
      pdf_files := pdf_files
      png_files := png_files
      image_paths := []
      output_pdf_path := none
      fileWrites := []
      dirsCreated := [outputBaseDir]
      diagnostics :=
        if 0 < num_pdf ∧ 0 < num_png then
          pdf_files.map basenameChars ++ png_files.map basenameChars
        else if num_pdf = 0 ∧ num_png = 1 then
          png_files.map basenameChars
        else []
      overall_success := false
      processed_something := false
      exitCode := 0 }

/-- The first element surviving `dropWhile` fails the predicate. -/
theorem dropWhile_head_false {α : Type} (p : α → Bool) (l : List α) {c : α}
    {t : List α} (h : l.dropWhile p = c :: t) : p c = false := by
  induction l with
  | nil => simp at h
  | cons a l ih =>
    rw [List.dropWhile_cons] at h
    by_cases hp : p a = true
    · rw [if_pos hp] at h; exact ih h
    · rw [if_neg hp] at h
      injection h with h1 _
      subst h1
      exact Bool.not_eq_true _ ▸ hp

/-- Dropping the leading non-digit run and then the following (nonempty)
digit run strictly shortens a string that contains a digit. -/
theorem dropWhile_digits_length_lt (cs : List Char)
    (h : cs.dropWhile (fun c => !c.isDigit) ≠ []) :
    ((cs.dropWhile (fun c => !c.isDigit)).dropWhile Char.isDigit).length
      < cs.length := by
  have h1 : List.Sublist (cs.dropWhile (fun c => !c.isDigit)) cs :=
    List.dropWhile_sublist _
  rcases hd : cs.dropWhile (fun c => !c.isDigit) with _ | ⟨c, t⟩
  · exact absurd hd h
  · have hc : Char.isDigit c = true := by
      have hcf := dropWhile_head_false (fun c => !c.isDigit) cs hd
      simpa using hcf
    have h3 : (cs.dropWhile (fun c => !c.isDigit)).dropWhile Char.isDigit
        = t.dropWhile Char.isDigit := by
      rw [hd, List.dropWhile_cons, if_pos hc]
    have h4 : (t.dropWhile Char.isDigit).length ≤ t.length :=
      (List.dropWhile_sublist _).length_le
    have h5 : (c :: t).length ≤ cs.length := by
      rw [← hd]; exact h1.length_le
    simp only [h3]
    simp only [List.length_cons] at h5
    omega

/-- The worker is fuel-irrelevant once the fuel exceeds the string length. -/
theorem reSplitAux_congr (n : Nat) :
    ∀ fuel fuel' cs, cs.length ≤ n → n < fuel → n < fuel' →
      reSplitAux fuel cs = reSplitAux fuel' cs := by
  induction n with
  | zero =>
    intro fuel fuel' cs hlen hf hf'
    obtain rfl : cs = [] := List.eq_nil_of_length_eq_zero (Nat.le_zero.mp hlen)
    obtain ⟨f, rfl⟩ : ∃ f, fuel = f + 1 := ⟨fuel - 1, by omega⟩
    obtain ⟨f', rfl⟩ : ∃ f', fuel' = f' + 1 := ⟨fuel' - 1, by omega⟩
    rfl
  | succ n ih =>
    intro fuel fuel' cs hlen hf hf'
    obtain ⟨f, rfl⟩ : ∃ f, fuel = f + 1 := ⟨fuel - 1, by omega⟩
    obtain ⟨f', rfl⟩ : ∃ f', fuel' = f' + 1 := ⟨fuel' - 1, by omega⟩
    simp only [reSplitAux]
    by_cases hq : cs.dropWhile (fun c => !c.isDigit) = []
    · rw [if_pos hq, if_pos hq]
    · rw [if_neg hq, if_neg hq]
      have hlt := dropWhile_digits_length_lt cs hq
      rw [ih f f' _ (by omega) (by omega) (by omega)]

/-- The worker is fuel-irrelevant once the fuel exceeds the string length. -/
theorem specTokensAux_congr (n : Nat) :
    ∀ fuel fuel' cs, cs.length ≤ n → n < fuel → n < fuel' →
      specTokensAux fuel cs = specTokensAux fuel' cs := by
  induction n with
  | zero =>
    intro fuel fuel' cs hlen hf hf'
    obtain rfl : cs = [] := List.eq_nil_of_length_eq_zero (Nat.le_zero.mp hlen)
    obtain ⟨f, rfl⟩ : ∃ f, fuel = f + 1 := ⟨fuel - 1, by omega⟩
    obtain ⟨f', rfl⟩ : ∃ f', fuel' = f' + 1 := ⟨fuel' - 1, by omega⟩
    rfl
  | succ n ih =>
    intro fuel fuel' cs hlen hf hf'
    obtain ⟨f, rfl⟩ : ∃ f, fuel = f + 1 := ⟨fuel - 1, by omega⟩
    obtain ⟨f', rfl⟩ : ∃ f', fuel' = f' + 1 := ⟨fuel' - 1, by omega⟩
    simp only [specTokensAux]
    by_cases hq : cs.dropWhile (fun c => !c.isDigit) = []
    · rw [if_pos hq, if_pos hq]
    · rw [if_neg hq, if_neg hq]
      have hlt := dropWhile_digits_length_lt cs hq
      rw [ih f f' _ (by omega) (by omega) (by omega)]

/-- `specTokens` on an all-non-digit string is a single text token. -/
theorem specTokens_of_drop_nil {cs : List Char}
    (h : cs.dropWhile (fun c => !c.isDigit) = []) :
    specTokens cs = [Tok.str (lowerAll (cs.takeWhile (fun c => !c.isDigit)))] := by
  simp only [specTokens, specTokensAux]
  rw [if_pos h]

/-- `specTokens` unfolding when a digit occurs. -/
theorem specTokens_of_drop_ne_nil {cs : List Char}
    (h : cs.dropWhile (fun c => !c.isDigit) ≠ []) :
    specTokens cs =
      Tok.str (lowerAll (cs.takeWhile (fun c => !c.isDigit)))
        :: Tok.num (toNatDigits
              ((cs.dropWhile (fun c => !c.isDigit)).takeWhile Char.isDigit))
        :: specTokens ((cs.dropWhile (fun c => !c.isDigit)).dropWhile Char.isDigit) := by
  have hlt := dropWhile_digits_length_lt cs h
  simp only [specTokens, specTokensAux]
  rw [if_neg h]
  rw [specTokensAux_congr
    ((cs.dropWhile (fun c => !c.isDigit)).dropWhile Char.isDigit).length
    cs.length _ _ le_rfl hlt (Nat.lt_succ_self _)]
  simp only [specTokensAux]

/-- A path without a separator is its own basename. -/
theorem basenameChars_eq_self {cs : List Char} (h : '/' ∉ cs) :
    basenameChars cs = cs := by
  unfold basenameChars
  rw [List.takeWhile_eq_self_iff.mpr, List.reverse_reverse]
  intro x hx
  have hx' : x ∈ cs := List.mem_reverse.mp hx
  simp only [decide_eq_true_eq]
  intro hcontra
  exact h (hcontra ▸ hx')

/-- Comparison of a character list with itself is `eq`. -/
theorem cmpChars_self (a : List Char) : cmpChars a a = Ordering.eq := by
  induction a with
  | nil => rfl
  | cons c t ih =>
    unfold cmpChars
    rw [Nat.compare_eq_eq.mpr rfl]
    exact ih

/-- Comparison of a token with itself is defined and `eq`. -/
theorem tokCmp_self (t : Tok) : tokCmp t t = some Ordering.eq := by
  cases t with
  | str a => simp [tokCmp, cmpChars_self]
  | num n => simp [tokCmp, Nat.compare_eq_eq.mpr rfl]

/-- Equal head tokens reduce a key comparison to the tails. -/
theorem keyCmp_cons_self (a : Tok) (as bs : List Tok) :
    keyCmp (a :: as) (a :: bs) = keyCmp as bs := by
  simp only [keyCmp, tokCmp_self]

/-- `reSplitDigits` on an all-non-digit string is a single piece. -/
theorem reSplitDigits_of_drop_nil {cs : List Char}
    (h : cs.dropWhile (fun c => !c.isDigit) = []) :
    reSplitDigits cs = [cs.takeWhile (fun c => !c.isDigit)] := by
  simp only [reSplitDigits, reSplitAux]
  rw [if_pos h]

/-- `reSplitDigits` unfolding when a digit occurs. -/
theorem reSplitDigits_of_drop_ne_nil {cs : List Char}
    (h : cs.dropWhile (fun c => !c.isDigit) ≠ []) :
    reSplitDigits cs =
      cs.takeWhile (fun c => !c.isDigit)
        :: (cs.dropWhile (fun c => !c.isDigit)).takeWhile Char.isDigit
        :: reSplitDigits ((cs.dropWhile (fun c => !c.isDigit)).dropWhile Char.isDigit) := by
  have hlt := dropWhile_digits_length_lt cs h
  simp only [reSplitDigits, reSplitAux]
  rw [if_neg h]
  rw [reSplitAux_congr
    ((cs.dropWhile (fun c => !c.isDigit)).dropWhile Char.isDigit).length
    cs.length _ _ le_rfl hlt (Nat.lt_succ_self _)]
  simp only [reSplitAux]

/-- A nonempty `dropWhile` keeps the last element of the list. -/
theorem getLast?_dropWhile_of_ne_nil {α : Type} (p : α → Bool) (l : List α)
    (h : l.dropWhile p ≠ []) : (l.dropWhile p).getLast? = l.getLast? := by
  conv_rhs => rw [← List.takeWhile_append_dropWhile p l]
  rw [List.getLast?_append]
  rcases hg : (l.dropWhile p).getLast? with _ | c
  · exact absurd (List.getLast?_eq_none_iff.mp hg) h
  · rfl

/-- A piece with no digit characters maps to a (lower-cased) text token. -/
theorem pyTok_of_nondigit {p : List Char} (hp : ∀ c ∈ p, c.isDigit = false) :
    pyTok p = Tok.str (lowerAll p) := by
  unfold pyTok pyIsDigit
  cases p with
  | nil => simp
  | cons c t =>
    have hc := hp c (List.mem_cons_self c t)
    have : (c :: t).all Char.isDigit = false := by
      simp [List.all_cons, hc]
    rw [this]
    simp

/-- A nonempty all-digit piece maps to its integer-valued token. -/
theorem pyTok_of_digits {d : List Char} (hne : d ≠ [])
    (hd : ∀ c ∈ d, c.isDigit = true) :
    pyTok d = Tok.num (toNatDigits d) := by
  unfold pyTok pyIsDigit
  have h1 : d.isEmpty = false := by
    cases d with
    | nil => exact absurd rfl hne
    | cons c t => rfl
  have h2 : d.all Char.isDigit = true := List.all_eq_true.mpr hd
  rw [h1, h2]
  simp

/-- Splitting a string of shape "non-digit block ++ digit run ++ rest whose
head is no digit" produces the block, the run, and the split of the rest. -/
theorem splitKeyChars_block (p d s : List Char)
    (hp : ∀ c ∈ p, c.isDigit = false)
    (hdne : d ≠ []) (hd : ∀ c ∈ d, c.isDigit = true)
    (hs : ∀ c, s.head? = some c → c.isDigit = false) :
    splitKeyChars (p ++ d ++ s) =
      Tok.str (lowerAll p) :: Tok.num (toNatDigits d) :: splitKeyChars s := by
  have hpq : ∀ c ∈ p, (fun c => !c.isDigit) c = true := by
    intro c hc; simp [hp c hc]
  have hdq : ∀ c ∈ d, Char.isDigit c = true := hd
  obtain ⟨c0, d', rfl⟩ : ∃ c0 d', d = c0 :: d' := by
    cases d with
    | nil => exact absurd rfl hdne
    | cons c0 d' => exact ⟨c0, d', rfl⟩
  have hc0 : c0.isDigit = true := hd c0 (List.mem_cons_self _ _)
  have hts : s.takeWhile Char.isDigit = [] := by
    cases s with
    | nil => rfl
    | cons c t =>
      have := hs c rfl
      rw [List.takeWhile_cons_of_neg]
      simp [this]
  have hds : s.dropWhile Char.isDigit = s := by
    cases s with
    | nil => rfl
    | cons c t =>
      have := hs c rfl
      rw [List.dropWhile_cons_of_neg]
      simp [this]
  have htake : (p ++ (c0 :: d') ++ s).takeWhile (fun c => !c.isDigit) = p := by
    rw [List.append_assoc, List.takeWhile_append_of_pos hpq, List.cons_append,
      List.takeWhile_cons_of_neg (by simp [hc0])]
    simp
  have hdrop : (p ++ (c0 :: d') ++ s).dropWhile (fun c => !c.isDigit)
      = (c0 :: d') ++ s := by
    rw [List.append_assoc, List.dropWhile_append_of_pos hpq, List.cons_append,
      List.dropWhile_cons_of_neg (by simp [hc0])]
  have hdig_take : ((c0 :: d') ++ s).takeWhile Char.isDigit = c0 :: d' := by
    rw [List.takeWhile_append_of_pos hdq, hts]
    simp
  have hdig_drop : ((c0 :: d') ++ s).dropWhile Char.isDigit = s := by
    rw [List.dropWhile_append_of_pos hdq, hds]
  unfold splitKeyChars
  rw [reSplitDigits_of_drop_ne_nil (by rw [hdrop]; simp), htake, hdrop,
    hdig_take, hdig_drop]
  rw [List.map_cons, List.map_cons, pyTok_of_nondigit hp,
    pyTok_of_digits (by simp) hd]

/-- One splitting step for a string whose prefix `p` contains a digit and
does not end in one: the leading non-digit block and first digit run of
`p` come off, independently of the appended `x`. -/
theorem splitKeyChars_step (p x : List Char)
    (hr : p.dropWhile (fun c => !c.isDigit) ≠ [])
    (hlast : ∀ c, p.getLast? = some c → c.isDigit = false) :
    splitKeyChars (p ++ x) =
      Tok.str (lowerAll (p.takeWhile (fun c => !c.isDigit)))
        :: Tok.num (toNatDigits
              ((p.dropWhile (fun c => !c.isDigit)).takeWhile Char.isDigit))
        :: splitKeyChars
             (((p.dropWhile (fun c => !c.isDigit)).dropWhile Char.isDigit) ++ x) := by
  obtain ⟨c0, t, hrp⟩ : ∃ c0 t, p.dropWhile (fun c => !c.isDigit) = c0 :: t := by
    rcases hd : p.dropWhile (fun c => !c.isDigit) with _ | ⟨c0, t⟩
    · exact absurd hd hr
    · exact ⟨c0, t, hd⟩
  have hc0 : c0.isDigit = true := by
    have := dropWhile_head_false (fun c => !c.isDigit) p hrp
    simpa using this
  have hrp_ne : p.dropWhile (fun c => !c.isDigit) ≠ [] := hr
  have hlast_rp : (p.dropWhile (fun c => !c.isDigit)).getLast? = p.getLast? :=
    getLast?_dropWhile_of_ne_nil _ _ hrp_ne
  have hrp2_ne : (p.dropWhile (fun c => !c.isDigit)).dropWhile Char.isDigit ≠ [] := by
    intro hnil
    have hall : ∀ c ∈ p.dropWhile (fun c => !c.isDigit), Char.isDigit c :=
      fun c hc => List.dropWhile_eq_nil_iff.mp hnil c hc
    have hlast_some : (p.dropWhile (fun c => !c.isDigit)).getLast? =
        some ((p.dropWhile (fun c => !c.isDigit)).getLast hrp_ne) :=
      List.getLast?_eq_getLast _ hrp_ne
    have hmem := List.getLast_mem hrp_ne
    have hdig := hall _ hmem
    have hnondig := hlast _ (hlast_rp ▸ hlast_some)
    rw [hnondig] at hdig
    exact Bool.false_ne_true hdig
  have htake : (p ++ x).takeWhile (fun c => !c.isDigit)
      = p.takeWhile (fun c => !c.isDigit) := by
    rw [List.takeWhile_append]
    rw [if_neg]
    intro hlen
    have hsplit := List.takeWhile_append_dropWhile (fun c => !c.isDigit) p
    have := congrArg List.length hsplit
    rw [List.length_append, hlen] at this
    have : (p.dropWhile (fun c => !c.isDigit)).length = 0 := by omega
    exact hrp_ne (List.eq_nil_of_length_eq_zero this)
  have hdrop : (p ++ x).dropWhile (fun c => !c.isDigit)
      = p.dropWhile (fun c => !c.isDigit) ++ x := by
    rw [List.dropWhile_append]
    rw [if_neg]
    simp [hrp]
  have hdig_take : ((p.dropWhile (fun c => !c.isDigit)) ++ x).takeWhile Char.isDigit
      = (p.dropWhile (fun c => !c.isDigit)).takeWhile Char.isDigit := by
    rw [List.takeWhile_append]
    rw [if_neg]
    intro hlen
    have hsplit := List.takeWhile_append_dropWhile Char.isDigit
      (p.dropWhile (fun c => !c.isDigit))
    have := congrArg List.length hsplit
    rw [List.length_append, hlen] at this
    have : ((p.dropWhile (fun c => !c.isDigit)).dropWhile Char.isDigit).length = 0 := by
      omega
    exact hrp2_ne (List.eq_nil_of_length_eq_zero this)
  have hdig_drop : ((p.dropWhile (fun c => !c.isDigit)) ++ x).dropWhile Char.isDigit
      = (p.dropWhile (fun c => !c.isDigit)).dropWhile Char.isDigit ++ x := by
    rw [List.dropWhile_append]
    rw [if_neg]
    rcases hnil : (p.dropWhile (fun c => !c.isDigit)).dropWhile Char.isDigit with _ | _
    · exact absurd hnil hrp2_ne
    · simp [hnil]
  have hdrop_px_ne : (p ++ x).dropWhile (fun c => !c.isDigit) ≠ [] := by
    rw [hdrop, hrp]
    simp
  unfold splitKeyChars
  rw [reSplitDigits_of_drop_ne_nil hdrop_px_ne, htake, hdrop, hdig_take, hdig_drop]
  rw [List.map_cons, List.map_cons]
  rw [pyTok_of_nondigit (fun c hc => by
    have := List.mem_takeWhile_imp hc
    simpa using this)]
  rw [pyTok_of_digits]
  · rw [hrp, List.takeWhile_cons_of_pos hc0]
    simp
  · intro c hc
    exact List.mem_takeWhile_imp hc

/-- The step of `splitKeyChars_step` strictly shortens the prefix. -/
theorem splitKeyChars_step_len (p : List Char)
    (hr : p.dropWhile (fun c => !c.isDigit) ≠ []) :
    ((p.dropWhile (fun c => !c.isDigit)).dropWhile Char.isDigit).length < p.length := by
  obtain ⟨c0, t, hrp⟩ : ∃ c0 t, p.dropWhile (fun c => !c.isDigit) = c0 :: t := by
    rcases hd : p.dropWhile (fun c => !c.isDigit) with _ | ⟨c0, t⟩
    · exact absurd hd hr
    · exact ⟨c0, t, hd⟩
  have hc0 : c0.isDigit = true := by
    have := dropWhile_head_false (fun c => !c.isDigit) p hrp
    simpa using this
  have h3 : (p.dropWhile (fun c => !c.isDigit)).dropWhile Char.isDigit
      = t.dropWhile Char.isDigit := by
    rw [hrp, List.dropWhile_cons, if_pos hc0]
  have h4 : (t.dropWhile Char.isDigit).length ≤ t.length :=
    (List.dropWhile_sublist _).length_le
  have h5 : (c0 :: t).length ≤ p.length := by
    rw [← hrp]; exact (List.dropWhile_sublist _).length_le
  rw [h3]
  simp only [List.length_cons] at h5
  omega

/-- The step of `splitKeyChars_step` keeps "does not end in a digit". -/
theorem splitKeyChars_step_last (p : List Char)
    (hlast : ∀ c, p.getLast? = some c → c.isDigit = false) :
    ∀ c, ((p.dropWhile (fun c => !c.isDigit)).dropWhile Char.isDigit).getLast?
      = some c → c.isDigit = false := by
  intro c hc
  have hrp2_ne : (p.dropWhile (fun c => !c.isDigit)).dropWhile Char.isDigit ≠ [] := by
    intro hnil
    rw [hnil] at hc
    simp at hc
  have hrp_ne : p.dropWhile (fun c => !c.isDigit) ≠ [] := by
    intro hnil
    rw [hnil] at hc
    simp at hc
  have h1 : ((p.dropWhile (fun c => !c.isDigit)).dropWhile Char.isDigit).getLast?
      = (p.dropWhile (fun c => !c.isDigit)).getLast? :=
    getLast?_dropWhile_of_ne_nil _ _ hrp2_ne
  have h2 : (p.dropWhile (fun c => !c.isDigit)).getLast? = p.getLast? :=
    getLast?_dropWhile_of_ne_nil _ _ hrp_ne
  exact hlast c (h2 ▸ h1 ▸ hc)

/-- Key comparison for an all-non-digit shared block followed by two digit
runs of different value: the smaller value compares `lt`. -/
theorem keyCmp_block_lt (p d1 d2 s : List Char)
    (hall : ∀ c ∈ p, c.isDigit = false)
    (hd1ne : d1 ≠ []) (hd1 : ∀ c ∈ d1, c.isDigit = true)
    (hd2ne : d2 ≠ []) (hd2 : ∀ c ∈ d2, c.isDigit = true)
    (hs : ∀ c, s.head? = some c → c.isDigit = false)
    (hlt : toNatDigits d1 < toNatDigits d2) :
    keyCmp (splitKeyChars (p ++ d1 ++ s)) (splitKeyChars (p ++ d2 ++ s))
      = some Ordering.lt := by
  rw [splitKeyChars_block p d1 s hall hd1ne hd1 hs,
    splitKeyChars_block p d2 s hall hd2ne hd2 hs,
    keyCmp_cons_self]
  simp [keyCmp, tokCmp, Nat.compare_eq_lt.mpr hlt]

/-- Two strings that differ in exactly one maximal digit run compare by the
runs' integer values: the key with the smaller value is strictly smaller. -/
theorem keyCmp_splitKey_insert (n : Nat) :
    ∀ p d1 d2 s : List Char, p.length ≤ n →
    (∀ c, p.getLast? = some c → c.isDigit = false) →
    d1 ≠ [] → (∀ c ∈ d1, c.isDigit = true) →
    d2 ≠ [] → (∀ c ∈ d2, c.isDigit = true) →
    (∀ c, s.head? = some c → c.isDigit = false) →
    toNatDigits d1 < toNatDigits d2 →
    keyCmp (splitKeyChars (p ++ d1 ++ s)) (splitKeyChars (p ++ d2 ++ s))
      = some Ordering.lt := by
  induction n with
  | zero =>
    intro p d1 d2 s hlen _ hd1ne hd1 hd2ne hd2 hs hlt
    have hp0 : p = [] := List.eq_nil_of_length_eq_zero (Nat.le_zero.mp hlen)
    subst hp0
    exact keyCmp_block_lt [] d1 d2 s (by simp) hd1ne hd1 hd2ne hd2 hs hlt
  | succ n ih =>
    intro p d1 d2 s hlen hp hd1ne hd1 hd2ne hd2 hs hlt
    by_cases hq : p.dropWhile (fun c => !c.isDigit) = []
    · have hall : ∀ c ∈ p, c.isDigit = false := by
        intro c hc
        have := List.dropWhile_eq_nil_iff.mp hq c hc
        simpa using this
      exact keyCmp_block_lt p d1 d2 s hall hd1ne hd1 hd2ne hd2 hs hlt
    · rw [List.append_assoc p d1 s, List.append_assoc p d2 s,
        splitKeyChars_step p (d1 ++ s) hq hp,
        splitKeyChars_step p (d2 ++ s) hq hp,
        keyCmp_cons_self, keyCmp_cons_self,
        ← List.append_assoc _ d1 s, ← List.append_assoc _ d2 s]
      exact ih _ d1 d2 s
        (by have := splitKeyChars_step_len p hq; omega)
        (splitKeyChars_step_last p hp) hd1ne hd1 hd2ne hd2 hs hlt

/-- The leading digit run of a string that contains a digit is nonempty. -/
theorem digitRun_ne_nil (cs : List Char)
    (h : cs.dropWhile (fun c => !c.isDigit) ≠ []) :
    (cs.dropWhile (fun c => !c.isDigit)).takeWhile Char.isDigit ≠ [] := by
  rcases hd : cs.dropWhile (fun c => !c.isDigit) with _ | ⟨c, t⟩
  · exact absurd hd h
  · have hc : Char.isDigit c = true := by
      have := dropWhile_head_false (fun c => !c.isDigit) cs hd
      simpa using this
    rw [hd, List.takeWhile_cons_of_pos hc]
    simp

/-- Characters of a non-digit run are non-digits. -/
theorem nondigitRun_all (cs : List Char) :
    ∀ c ∈ cs.takeWhile (fun c => !c.isDigit), c.isDigit = false := by
  intro c hc
  have := List.mem_takeWhile_imp hc
  simpa using this

/-- `splitKeyChars` on an all-non-digit string. -/
theorem splitKeyChars_of_drop_nil {cs : List Char}
    (h : cs.dropWhile (fun c => !c.isDigit) = []) :
    splitKeyChars cs =
      [Tok.str (lowerAll (cs.takeWhile (fun c => !c.isDigit)))] := by
  unfold splitKeyChars
  rw [reSplitDigits_of_drop_nil h, List.map_cons, List.map_nil,
    pyTok_of_nondigit (nondigitRun_all cs)]

/-- `splitKeyChars` unfolding when a digit occurs. -/
theorem splitKeyChars_of_drop_ne_nil {cs : List Char}
    (h : cs.dropWhile (fun c => !c.isDigit) ≠ []) :
    splitKeyChars cs =
      Tok.str (lowerAll (cs.takeWhile (fun c => !c.isDigit)))
        :: Tok.num (toNatDigits
              ((cs.dropWhile (fun c => !c.isDigit)).takeWhile Char.isDigit))
        :: splitKeyChars ((cs.dropWhile (fun c => !c.isDigit)).dropWhile Char.isDigit) := by
  unfold splitKeyChars
  rw [reSplitDigits_of_drop_ne_nil h, List.map_cons, List.map_cons,
    pyTok_of_nondigit (nondigitRun_all cs),
    pyTok_of_digits (digitRun_ne_nil cs h)
      (fun c hc => List.mem_takeWhile_imp hc)]

/-- The sort key always alternates: text tokens at even positions, integer
tokens at odd positions. -/
theorem altFrom_splitKeyChars (n : Nat) :
    ∀ cs : List Char, cs.length ≤ n →
      altFrom true (splitKeyChars cs) = true := by
  induction n with
  | zero =>
    intro cs hlen
    obtain rfl : cs = [] := List.eq_nil_of_length_eq_zero (Nat.le_zero.mp hlen)
    decide
  | succ n ih =>
    intro cs hlen
    by_cases hq : cs.dropWhile (fun c => !c.isDigit) = []
    · rw [splitKeyChars_of_drop_nil hq]
      simp [altFrom, isStrTok]
    · rw [splitKeyChars_of_drop_ne_nil hq]
      have hlt := dropWhile_digits_length_lt cs hq
      have htail := ih ((cs.dropWhile (fun c => !c.isDigit)).dropWhile Char.isDigit)
        (by omega)
      simp [altFrom, isStrTok, htail]

/-- Two token lists that alternate from the same phase always compare
without ever pairing an integer token with a text token. -/
theorem keyCmp_isSome_of_altFrom :
    ∀ (K1 : List Tok) (b : Bool) (K2 : List Tok), altFrom b K1 = true →
      altFrom b K2 = true → (keyCmp K1 K2).isSome = true := by
  intro K1
  induction K1 with
  | nil =>
    intro b K2 _ _
    cases K2 <;> simp [keyCmp]
  | cons t1 r1 ih =>
    intro b K2 h1 h2
    cases K2 with
    | nil => simp [keyCmp]
    | cons t2 r2 =>
      simp only [altFrom, Bool.and_eq_true, beq_iff_eq] at h1 h2
      obtain ⟨hb1, hr1⟩ := h1
      obtain ⟨hb2, hr2⟩ := h2
      cases t1 with
      | str a =>
        cases t2 with
        | str c =>
          have htail := ih (!b) r2 hr1 hr2
          rcases hcc : cmpChars a c <;>
            simp [keyCmp, tokCmp, hcc, htail]
        | num m =>
          rw [isStrTok] at hb1
          rw [isStrTok] at hb2
          rw [← hb1] at hb2
          exact absurd hb2 (by simp)
      | num m =>
        cases t2 with
        | str c =>
          rw [isStrTok] at hb1
          rw [isStrTok] at hb2
          rw [← hb1] at hb2
          exact absurd hb2 (by simp)
        | num k =>
          have htail := ih (!b) r2 hr1 hr2
          rcases hcc : compare m k <;>
            simp [keyCmp, tokCmp, hcc, htail]

/-- The key of any path alternates starting with a text token. -/
theorem altFrom_natural_sort_key (a : List Char) :
    altFrom true (natural_sort_key a) = true :=
  altFrom_splitKeyChars (basenameChars a).length (basenameChars a) le_rfl

/-- The line-161 sort never raises: the guard of `trySortNat` always holds. -/
theorem trySortNat_eq_some (files : List (List Char)) :
    trySortNat files = some (insertionSortLe natLe files) := by
  unfold trySortNat
  rw [if_pos]
  rw [List.all_eq_true]
  intro a _
  rw [List.all_eq_true]
  intro b _
  exact keyCmp_isSome_of_altFrom _ true _
    (altFrom_natural_sort_key a) (altFrom_natural_sort_key b)

/-- The source key computation agrees with the spec-worded tokenizer on the
same input string. -/
theorem splitKeyChars_eq_specTokens (n : Nat) :
    ∀ cs : List Char, cs.length ≤ n → splitKeyChars cs = specTokens cs := by
  induction n with
  | zero =>
    intro cs hlen
    obtain rfl : cs = [] := List.eq_nil_of_length_eq_zero (Nat.le_zero.mp hlen)
    decide
  | succ n ih =>
    intro cs hlen
    by_cases hq : cs.dropWhile (fun c => !c.isDigit) = []
    · rw [splitKeyChars_of_drop_nil hq, specTokens_of_drop_nil hq]
    · rw [splitKeyChars_of_drop_ne_nil hq, specTokens_of_drop_ne_nil hq]
      have hlt := dropWhile_digits_length_lt cs hq
      rw [ih _ (by omega)]

/-- The pages placed by the loop are exactly the successfully opened images,
in their incoming order. -/
theorem placePages_fst (placeOk : List Char → Bool) (l : List (List Char)) :
    (placePages placeOk l).1 = l.filter placeOk := by
  induction l with
  | nil => rfl
  | cons a t ih =>
    by_cases h : placeOk a = true
    · simp [placePages, List.filter_cons, h, ih]
    · simp only [Bool.not_eq_true] at h
      simp [placePages, List.filter_cons, h, ih]

/-- The warnings recorded by the loop are the basenames of the failing
images, in their incoming order. -/
theorem placePages_snd (placeOk : List Char → Bool) (l : List (List Char)) :
    (placePages placeOk l).2
      = (l.filter (fun p => !placeOk p)).map basenameChars := by
  induction l with
  | nil => rfl
  | cons a t ih =>
    by_cases h : placeOk a = true
    · simp [placePages, List.filter_cons, h, ih]
    · simp only [Bool.not_eq_true] at h
      simp [placePages, List.filter_cons, h, ih]

/-- Stable insertion permutes. -/
theorem orderedInsertLe_perm (le : List Char → List Char → Bool)
    (a : List Char) (l : List (List Char)) :
    List.Perm (orderedInsertLe le a l) (a :: l) := by
  induction l with
  | nil => exact List.Perm.refl _
  | cons b t ih =>
    unfold orderedInsertLe
    by_cases h : le a b = true
    · rw [if_pos h]
    · rw [if_neg h]
      exact (ih.cons b).trans (List.Perm.swap a b t)

/-- Insertion sort permutes its input. -/
theorem insertionSortLe_perm (le : List Char → List Char → Bool)
    (l : List (List Char)) : List.Perm (insertionSortLe le l) l := by
  induction l with
  | nil => exact List.Perm.refl _
  | cons a t ih =>
    exact (orderedInsertLe_perm le a (insertionSortLe le t)).trans (ih.cons a)

/-- Full characterisation of a terminating conflict-avoidance loop run:
the returned path does not exist, and it is `pdfName base m` for the least
admissible `m` at or after the starting attempt. -/
theorem conflictLoop_spec (ex : List Char → Bool) (base : List Char) :
    ∀ fuel k p, conflictLoop ex base fuel k = some p →
      ex p = false ∧ ∃ m, k ≤ m ∧ p = pdfName base m ∧
        ∀ j, k ≤ j → j < m → ex (pdfName base j) = true := by
  intro fuel
  induction fuel with
  | zero =>
    intro k p h
    simp [conflictLoop] at h
  | succ fuel ih =>
    intro k p h
    rw [conflictLoop] at h
    by_cases hex : ex (pdfName base k) = true
    · rw [if_pos hex] at h
      obtain ⟨hps, m, hkm, hpm, hmin⟩ := ih (k + 1) p h
      refine ⟨hps, m, by omega, hpm, ?_⟩
      intro j hj1 hj2
      by_cases hjk : j = k
      · exact hjk ▸ hex
      · exact hmin j (by omega) hj2
    · rw [if_neg hex] at h
      injection h with h
      subst h
      refine ⟨by simpa using hex, k, le_rfl, rfl, ?_⟩
      intro j h1 h2
      omega


/-- The pages of a conversion result are the filter of the inputs. -/
theorem convert_png_pages (placeOk : List Char → Bool)
    (l : List (List Char)) :
    (convert_png_to_pdf placeOk l).pages = l.filter placeOk := by
  simp only [convert_png_to_pdf]
  split
  · exact placePages_fst placeOk l
  · exact placePages_fst placeOk l

/-- The warnings of a conversion result name the skipped files. -/
theorem convert_png_warnings (placeOk : List Char → Bool)
    (l : List (List Char)) :
    (convert_png_to_pdf placeOk l).warnings
      = (l.filter (fun q => !placeOk q)).map basenameChars := by
  simp only [convert_png_to_pdf]
  split
  · exact placePages_snd placeOk l
  · exact placePages_snd placeOk l

/-- The document is saved exactly when at least one page was placed. -/
theorem convert_png_saved_iff (placeOk : List Char → Bool)
    (l : List (List Char)) :
    (convert_png_to_pdf placeOk l).saved = true ↔
      (convert_png_to_pdf placeOk l).pages ≠ [] := by
  simp only [convert_png_to_pdf]
  split
  · rename_i hpos
    dsimp only
    have hne : (placePages placeOk l).1 ≠ [] := by
      intro hnil
      rw [hnil] at hpos
      simp at hpos
    simp [hne]
  · rename_i hpos
    dsimp only
    have hnil : (placePages placeOk l).1 = [] :=
      List.eq_nil_of_length_eq_zero (by omega)
    simp [hnil]

/-- The returned flag coincides with whether the document was saved. -/
theorem convert_png_success_eq_saved (placeOk : List Char → Bool)
    (l : List (List Char)) :
    (convert_png_to_pdf placeOk l).success = (convert_png_to_pdf placeOk l).saved := by
  simp only [convert_png_to_pdf]
  split
  · rfl
  · rfl

/-- C1 (code bug): for the input set {slide_1.png, slide_10.png, slide_2.png}
the resolved order starts with slide_1.png and the code derives the output
base name "slide_1", not the "slide" demanded by the claim: the source's
substitution pattern (a raw string containing a double backslash) never
strips a real digit suffix, while the spec-worded strip yields "slide". -/
theorem output_base_name_keeps_digit_suffix :
    sortWithFallback trySortNat
        ["t/slide_1.png".toList, "t/slide_10.png".toList, "t/slide_2.png".toList]
      = ["t/slide_1.png".toList, "t/slide_2.png".toList, "t/slide_10.png".toList]
    ∧ outputStem (sortWithFallback trySortNat
        ["t/slide_1.png".toList, "t/slide_10.png".toList, "t/slide_2.png".toList])
      = "slide_1".toList
    ∧ stripCodeSuffix "slide_1".toList = "slide_1".toList
    ∧ stripSpecTrailingNumber "slide_1".toList = "slide".toList
    ∧ "slide_1".toList ≠ "slide".toList := by
  decide

/-- C2: mode selection is the stated pure function of the two counts, and
the orchestration's mode always equals that function applied to the counts
from the scanned listing. -/
theorem mode_selection_pure_function :
    selectMode 1 0 = Mode.documentToImages ∧
    (∀ p : Nat, 2 ≤ p → selectMode 0 p = Mode.imagesToDocument) ∧
    selectMode 0 1 = Mode.invalid ∧
    (∀ d p : Nat, 1 ≤ d → 1 ≤ p → selectMode d p = Mode.invalid) ∧
    selectMode 0 0 = Mode.invalid ∧
    (∀ trySort target isFile listing pageCount placeOk ex fuel,
      (mainRun trySort target isFile listing pageCount placeOk ex fuel).mode
        = selectMode (scanFolder target isFile listing).1.length
            (scanFolder target isFile listing).2.length) := by
  refine ⟨by decide, ?_, by decide, ?_, by decide, ?_⟩
  · intro p hp
    unfold selectMode
    rw [if_neg (by omega), if_pos (by omega)]
  · intro d p hd hp
    unfold selectMode
    rw [if_neg (by omega), if_neg (by omega)]
  · intro trySort target isFile listing pageCount placeOk ex fuel
    simp only [mainRun, selectMode]
    by_cases h1 : 1 ≤ (scanFolder target isFile listing).1.length ∧
        (scanFolder target isFile listing).2.length = 0
    · rw [if_pos h1, if_pos h1]
    · rw [if_neg h1, if_neg h1]
      by_cases h2 : 1 < (scanFolder target isFile listing).2.length ∧
          (scanFolder target isFile listing).1.length = 0
      · rw [if_pos h2, if_pos h2]
      · rw [if_neg h2, if_neg h2]

/-- C2 witness: the pure-function mapping evaluated at (0,5) and (2,3). -/
theorem mode_selection_pure_function_witness :
    selectMode 0 5 = Mode.imagesToDocument ∧ selectMode 2 3 = Mode.invalid :=
  ⟨mode_selection_pure_function.2.1 5 (by omega),
   mode_selection_pure_function.2.2.2.1 2 3 (by omega) (by omega)⟩

/-- C3: for two file names that differ only in one embedded maximal numeric
run, the natural-sort key of the name with the smaller integer value
compares strictly below the other, whatever the digit strings' lengths. -/
theorem natural_sort_smaller_value_first
    (p d1 d2 s : List Char)
    (hp : (p.getLast?.map Char.isDigit).getD false = false)
    (hd1ne : d1 ≠ []) (hd1 : d1.all Char.isDigit = true)
    (hd2ne : d2 ≠ []) (hd2 : d2.all Char.isDigit = true)
    (hs : (s.head?.map Char.isDigit).getD false = false)
    (hslp : '/' ∉ p) (hsls : '/' ∉ s)
    (hlt : toNatDigits d1 < toNatDigits d2) :
    keyCmp (natural_sort_key (p ++ d1 ++ s)) (natural_sort_key (p ++ d2 ++ s))
      = some Ordering.lt := by
  have hp' : ∀ c, p.getLast? = some c → c.isDigit = false := by
    intro c hc
    rw [hc] at hp
    simpa using hp
  have hs' : ∀ c, s.head? = some c → c.isDigit = false := by
    intro c hc
    rw [hc] at hs
    simpa using hs
  have hd1' : ∀ c ∈ d1, c.isDigit = true := by
    intro c hc
    exact List.all_eq_true.mp hd1 c hc
  have hd2' : ∀ c ∈ d2, c.isDigit = true := by
    intro c hc
    exact List.all_eq_true.mp hd2 c hc
  have hsd1 : '/' ∉ d1 := by
    intro hmem
    have := hd1' '/' hmem
    simp at this
  have hsd2 : '/' ∉ d2 := by
    intro hmem
    have := hd2' '/' hmem
    simp at this
  have hnos1 : '/' ∉ p ++ d1 ++ s := by
    intro hmem
    rcases List.mem_append.mp hmem with h | h
    · rcases List.mem_append.mp h with h' | h'
      · exact hslp h'
      · exact hsd1 h'
    · exact hsls h
  have hnos2 : '/' ∉ p ++ d2 ++ s := by
    intro hmem
    rcases List.mem_append.mp hmem with h | h
    · rcases List.mem_append.mp h with h' | h'
      · exact hslp h'
      · exact hsd2 h'
    · exact hsls h
  unfold natural_sort_key
  rw [basenameChars_eq_self hnos1, basenameChars_eq_self hnos2]
  exact keyCmp_splitKey_insert p.length p d1 d2 s le_rfl hp' hd1ne hd1' hd2ne
    hd2' hs' hlt

/-- C3 witness: "page2.png" keys strictly below "page10.png", and the
embedded sort places page2 before page10. -/
theorem natural_sort_smaller_value_first_witness :
    keyCmp (natural_sort_key ("page".toList ++ "2".toList ++ ".png".toList))
        (natural_sort_key ("page".toList ++ "10".toList ++ ".png".toList))
      = some Ordering.lt ∧
    sortWithFallback trySortNat ["d/page10.png".toList, "d/page2.png".toList]
      = ["d/page2.png".toList, "d/page10.png".toList] :=
  ⟨natural_sort_smaller_value_first "page".toList "2".toList "10".toList
      ".png".toList (by decide) (by decide) (by decide) (by decide) (by decide)
      (by decide) (by decide) (by decide) (by decide),
   by decide⟩

/-- C4 counterexample: the key of "image10.png" keeps the extension as a
final text token, so it differs from the spec-worded key computed on the
extension-stripped base name. -/
theorem key_differs_from_extension_stripped_key :
    natural_sort_key "image10.png".toList
      ≠ spec_sort_key "image10.png".toList := by
  decide

/-- C4 amended: the key is computed from the basename with the directory
stripped but the extension retained, split into alternating non-digit and
digit runs with digit runs valued as integers and non-digit runs
lower-cased — i.e. the source key equals the spec-worded tokenizer applied
to the (extension-bearing) basename. -/
theorem key_is_spec_tokenizer_of_basename (s : List Char) :
    natural_sort_key s = specTokens (basenameChars s) :=
  splitKeyChars_eq_specTokens (basenameChars s).length (basenameChars s) le_rfl

/-- C5: a terminating conflict-avoidance loop returns a name that does not
exist; it is `<base>.pdf` whenever that is free, and in general
`pdfName base k` for the smallest admissible `k`. -/
theorem conflict_loop_first_free_name (ex : List Char → Bool)
    (base : List Char) (fuel : Nat) (p : List Char)
    (h : conflictLoop ex base fuel 0 = some p) :
    ex p = false ∧
    (ex (pdfName base 0) = false → p = pdfName base 0) ∧
    ∃ k, p = pdfName base k ∧ ∀ j, j < k → ex (pdfName base j) = true := by
  obtain ⟨h1, m, _, hpm, hmin⟩ := conflictLoop_spec ex base fuel 0 p h
  refine ⟨h1, ?_, m, hpm, fun j hj => hmin j (Nat.zero_le j) hj⟩
  intro h0
  rcases Nat.eq_zero_or_pos m with hm | hm
  · rw [hpm, hm]
  · have hx := hmin 0 (Nat.zero_le 0) hm
    rw [h0] at hx
    exact absurd hx (by simp)

/-- C5 witness: with combined.pdf and combined_1.pdf present the loop picks
combined_2.pdf, a fresh name with all smaller suffixes occupied. -/
theorem conflict_loop_first_free_name_witness :
    (fun s => s == "output/combined.pdf".toList
        || s == "output/combined_1.pdf".toList) "output/combined_2.pdf".toList
      = false ∧
    ((fun s => s == "output/combined.pdf".toList
        || s == "output/combined_1.pdf".toList)
          (pdfName "output/combined".toList 0) = false →
      "output/combined_2.pdf".toList = pdfName "output/combined".toList 0) ∧
    ∃ k, "output/combined_2.pdf".toList = pdfName "output/combined".toList k ∧
      ∀ j, j < k →
        (fun s => s == "output/combined.pdf".toList
          || s == "output/combined_1.pdf".toList)
            (pdfName "output/combined".toList j) = true :=
  conflict_loop_first_free_name
    (fun s => s == "output/combined.pdf".toList
      || s == "output/combined_1.pdf".toList)
    "output/combined".toList 5 "output/combined_2.pdf".toList (by decide)

/-- C6: failing images are skipped with a warning naming the file,
survivors keep their resolved relative order, the document is saved iff at
least one image was placed, and an all-failing run returns failure — in
which case the orchestration writes no output file and reports failure. -/
theorem image_placement_failures_skipped (placeOk : List Char → Bool)
    (paths : List (List Char)) :
    (convert_png_to_pdf placeOk paths).pages = paths.filter placeOk ∧
    (convert_png_to_pdf placeOk paths).warnings
      = (paths.filter (fun q => !placeOk q)).map basenameChars ∧
    (∀ q ∈ paths, placeOk q = false →
      basenameChars q ∈ (convert_png_to_pdf placeOk paths).warnings) ∧
    ((convert_png_to_pdf placeOk paths).saved = true ↔
      (convert_png_to_pdf placeOk paths).pages ≠ []) ∧
    (convert_png_to_pdf placeOk paths).success
      = (convert_png_to_pdf placeOk paths).saved ∧
    ((∀ q ∈ paths, placeOk q = false) →
      (convert_png_to_pdf placeOk paths).saved = false ∧
      (convert_png_to_pdf placeOk paths).success = false) ∧
    (∀ target isFile listing pageCount ex fuel,
      1 < (scanFolder target isFile listing).2.length ∧
        (scanFolder target isFile listing).1.length = 0 →
      (∀ q ∈ (scanFolder target isFile listing).2, placeOk q = false) →
      (mainRun trySortNat target isFile listing pageCount placeOk ex
        fuel).fileWrites = [] ∧
      (mainRun trySortNat target isFile listing pageCount placeOk ex
        fuel).overall_success = false) := by
  refine ⟨convert_png_pages placeOk paths, convert_png_warnings placeOk paths,
    ?_, convert_png_saved_iff placeOk paths,
    convert_png_success_eq_saved placeOk paths, ?_, ?_⟩
  · intro q hq hfail
    rw [convert_png_warnings]
    refine List.mem_map_of_mem basenameChars ?_
    rw [List.mem_filter]
    exact ⟨hq, by simp [hfail]⟩
  · intro hall
    have hnil : (convert_png_to_pdf placeOk paths).pages = [] := by
      rw [convert_png_pages]
      rw [List.filter_eq_nil_iff]
      intro q hq
      simp [hall q hq]
    have hsaved : (convert_png_to_pdf placeOk paths).saved = false := by
      rcases hsv : (convert_png_to_pdf placeOk paths).saved with _ | _
      · rfl
      · exact absurd hnil ((convert_png_saved_iff placeOk paths).mp hsv)
    exact ⟨hsaved, by rw [convert_png_success_eq_saved, hsaved]⟩
  · intro target isFile listing pageCount ex fuel hbranch hall
    have hsort : sortWithFallback trySortNat (scanFolder target isFile listing).2
        = insertionSortLe natLe (scanFolder target isFile listing).2 := by
      unfold sortWithFallback
      rw [trySortNat_eq_some]
    have hall2 : ∀ q ∈ sortWithFallback trySortNat
        (scanFolder target isFile listing).2, placeOk q = false := by
      intro q hq
      rw [hsort] at hq
      exact hall q ((insertionSortLe_perm natLe _).mem_iff.mp hq)
    have hnil : (convert_png_to_pdf placeOk (sortWithFallback trySortNat
        (scanFolder target isFile listing).2)).pages = [] := by
      rw [convert_png_pages, List.filter_eq_nil_iff]
      intro q hq
      simp [hall2 q hq]
    have hsaved : (convert_png_to_pdf placeOk (sortWithFallback trySortNat
        (scanFolder target isFile listing).2)).saved = false := by
      rcases hsv : (convert_png_to_pdf placeOk (sortWithFallback trySortNat
          (scanFolder target isFile listing).2)).saved with _ | _
      · rfl
      · exact absurd hnil ((convert_png_saved_iff placeOk _).mp hsv)
    have hsucc : (convert_png_to_pdf placeOk (sortWithFallback trySortNat
        (scanFolder target isFile listing).2)).success = false := by
      rw [convert_png_success_eq_saved, hsaved]
    simp only [mainRun]
    rw [if_neg (by omega), if_pos hbranch]
    dsimp only
    rw [hsaved, hsucc]
    exact ⟨rfl, rfl⟩

/-- C6 witness: with the middle of three images failing, its basename is
recorded as a warning. -/
theorem image_placement_failures_skipped_witness :
    basenameChars "t/b.png".toList ∈
      (convert_png_to_pdf (fun q => !(q == "t/b.png".toList))
        ["t/a.png".toList, "t/b.png".toList, "t/c.png".toList]).warnings :=
  (image_placement_failures_skipped (fun q => !(q == "t/b.png".toList))
      ["t/a.png".toList, "t/b.png".toList, "t/c.png".toList]).2.2.1
    "t/b.png".toList (by decide) (by decide)

/-- C7: if the resolved-order sort step fails, the run keeps going in
images-to-document mode using the scanner's original enumeration order. -/
theorem sort_failure_uses_scan_order
    (trySort : List (List Char) → Option (List (List Char)))
    (target : List Char) (isFile : List Char → Bool)
    (listing : List (List Char)) (pageCount : List Char → Option Nat)
    (placeOk : List Char → Bool) (ex : List Char → Bool) (fuel : Nat)
    (hbranch : 1 < (scanFolder target isFile listing).2.length ∧
      (scanFolder target isFile listing).1.length = 0)
    (hfail : trySort (scanFolder target isFile listing).2 = none) :
    (mainRun trySort target isFile listing pageCount placeOk ex fuel).mode
      = Mode.imagesToDocument ∧
    (mainRun trySort target isFile listing pageCount placeOk ex
      fuel).image_paths = (scanFolder target isFile listing).2 ∧
    (mainRun trySort target isFile listing pageCount placeOk ex
      fuel).processed_something = true := by
  have hsort : sortWithFallback trySort (scanFolder target isFile listing).2
      = (scanFolder target isFile listing).2 := by
    unfold sortWithFallback
    rw [hfail]
  simp only [mainRun]
  rw [if_neg (by omega), if_pos hbranch]
  dsimp only
  rw [hsort]
  exact ⟨rfl, rfl, rfl⟩

/-- C7 witness: a sorter that always fails leaves the two scanned images in
their enumeration order while the run proceeds. -/
theorem sort_failure_uses_scan_order_witness :
    (mainRun (fun _ => none) "t".toList (fun _ => true)
        ["b.png".toList, "a.png".toList] (fun _ => none) (fun _ => true)
        (fun _ => false) 3).mode = Mode.imagesToDocument ∧
    (mainRun (fun _ => none) "t".toList (fun _ => true)
        ["b.png".toList, "a.png".toList] (fun _ => none) (fun _ => true)
        (fun _ => false) 3).image_paths
      = (scanFolder "t".toList (fun _ => true)
          ["b.png".toList, "a.png".toList]).2 ∧
    (mainRun (fun _ => none) "t".toList (fun _ => true)
        ["b.png".toList, "a.png".toList] (fun _ => none) (fun _ => true)
        (fun _ => false) 3).processed_something = true :=
  sort_failure_uses_scan_order (fun _ => none) "t".toList (fun _ => true)
    ["b.png".toList, "a.png".toList] (fun _ => none) (fun _ => true)
    (fun _ => false) 3 (by decide) rfl

/-- C8 counterexample: on an empty folder the Invalid branch is taken, yet
the modelled run terminates with exit status 0 — the script never calls
`sys.exit` after the mode dispatch, so the claimed non-zero status fails. -/
theorem invalid_mode_exit_status_zero :
    (mainRun trySortNat "t".toList (fun _ => true) [] (fun _ => none)
        (fun _ => true) (fun _ => false) 1).mode = Mode.invalid ∧
    ¬ ((mainRun trySortNat "t".toList (fun _ => true) [] (fun _ => none)
        (fun _ => true) (fun _ => false) 1).exitCode ≠ 0) := by
  decide

/-- C8 amended: whenever the Invalid branch is taken the run records
failure (overall_success false, processed_something false) — observable in
the printed summary — but the process exit status is 0. -/
theorem invalid_mode_records_failure
    (trySort : List (List Char) → Option (List (List Char)))
    (target : List Char) (isFile : List Char → Bool)
    (listing : List (List Char)) (pageCount : List Char → Option Nat)
    (placeOk : List Char → Bool) (ex : List Char → Bool) (fuel : Nat)
    (h1 : ¬ (1 ≤ (scanFolder target isFile listing).1.length ∧
      (scanFolder target isFile listing).2.length = 0))
    (h2 : ¬ (1 < (scanFolder target isFile listing).2.length ∧
      (scanFolder target isFile listing).1.length = 0)) :
    (mainRun trySort target isFile listing pageCount placeOk ex fuel).mode
      = Mode.invalid ∧
    (mainRun trySort target isFile listing pageCount placeOk ex
      fuel).overall_success = false ∧
    (mainRun trySort target isFile listing pageCount placeOk ex
      fuel).processed_something = false ∧
    (mainRun trySort target isFile listing pageCount placeOk ex
      fuel).exitCode = 0 := by
  simp only [mainRun]
  rw [if_neg h1, if_neg h2]
  exact ⟨rfl, rfl, rfl, rfl⟩

/-- C8 amended witness: the single-PNG folder takes the Invalid branch with
failure recorded and exit status 0. -/
theorem invalid_mode_records_failure_witness :
    (mainRun trySortNat "t".toList (fun _ => true) ["a.png".toList]
        (fun _ => none) (fun _ => true) (fun _ => false) 1).mode
      = Mode.invalid ∧
    (mainRun trySortNat "t".toList (fun _ => true) ["a.png".toList]
        (fun _ => none) (fun _ => true) (fun _ => false) 1).overall_success
      = false ∧
    (mainRun trySortNat "t".toList (fun _ => true) ["a.png".toList]
        (fun _ => none) (fun _ => true) (fun _ => false) 1).processed_something
      = false ∧
    (mainRun trySortNat "t".toList (fun _ => true) ["a.png".toList]
        (fun _ => none) (fun _ => true) (fun _ => false) 1).exitCode = 0 :=
  invalid_mode_records_failure trySortNat "t".toList (fun _ => true)
    ["a.png".toList] (fun _ => none) (fun _ => true) (fun _ => false) 1
    (by decide) (by decide)

/-- C9: with at least one document and at least one image in the scan, the
mode is Invalid, no regular file is written, and the diagnostics name the
basename of every scanned document and image file. -/
theorem mixed_content_invalid_no_writes
    (trySort : List (List Char) → Option (List (List Char)))
    (target : List Char) (isFile : List Char → Bool)
    (listing : List (List Char)) (pageCount : List Char → Option Nat)
    (placeOk : List Char → Bool) (ex : List Char → Bool) (fuel : Nat)
    (hd : 1 ≤ (scanFolder target isFile listing).1.length)
    (hp : 1 ≤ (scanFolder target isFile listing).2.length) :
    (mainRun trySort target isFile listing pageCount placeOk ex fuel).mode
      = Mode.invalid ∧
    (mainRun trySort target isFile listing pageCount placeOk ex
      fuel).fileWrites = [] ∧
    (∀ f ∈ (scanFolder target isFile listing).1,
      basenameChars f ∈
        (mainRun trySort target isFile listing pageCount placeOk ex
          fuel).diagnostics) ∧
    (∀ f ∈ (scanFolder target isFile listing).2,
      basenameChars f ∈
        (mainRun trySort target isFile listing pageCount placeOk ex
          fuel).diagnostics) := by
  simp only [mainRun]
  rw [if_neg (by omega), if_neg (by omega)]
  dsimp only
  rw [if_pos ⟨by omega, by omega⟩]
  refine ⟨rfl, rfl, ?_, ?_⟩
  · intro f hf
    exact List.mem_append_left _ (List.mem_map_of_mem basenameChars hf)
  · intro f hf
    exact List.mem_append_right _ (List.mem_map_of_mem basenameChars hf)

/-- C9 witness: a folder holding a.pdf and b.png is Invalid, writes
nothing, and both names appear in the diagnostics. -/
theorem mixed_content_invalid_no_writes_witness :
    (mainRun trySortNat "t".toList (fun _ => true)
        ["a.pdf".toList, "b.png".toList] (fun _ => none) (fun _ => true)
        (fun _ => false) 1).mode = Mode.invalid ∧
    (mainRun trySortNat "t".toList (fun _ => true)
        ["a.pdf".toList, "b.png".toList] (fun _ => none) (fun _ => true)
        (fun _ => false) 1).fileWrites = [] ∧
    basenameChars "t/a.pdf".toList ∈
      (mainRun trySortNat "t".toList (fun _ => true)
        ["a.pdf".toList, "b.png".toList] (fun _ => none) (fun _ => true)
        (fun _ => false) 1).diagnostics ∧
    basenameChars "t/b.png".toList ∈
      (mainRun trySortNat "t".toList (fun _ => true)
        ["a.pdf".toList, "b.png".toList] (fun _ => none) (fun _ => true)
        (fun _ => false) 1).diagnostics := by
  have h := mixed_content_invalid_no_writes trySortNat "t".toList
    (fun _ => true) ["a.pdf".toList, "b.png".toList] (fun _ => none)
    (fun _ => true) (fun _ => false) 1 (by decide) (by decide)
  exact ⟨h.1, h.2.1, h.2.2.1 "t/a.pdf".toList (by decide),
    h.2.2.2 "t/b.png".toList (by decide)⟩

/-- C10: every key alternates text tokens at even positions with integer
tokens at odd positions, so comparing two keys never pairs an integer
token with a text token (no comparison is ever undefined), and the
sort-failure fallback branch is unreachable: the try-step always succeeds
and the fallback value is never used. -/
theorem keys_alternate_and_sort_cannot_fail :
    (∀ a : List Char, altFrom true (natural_sort_key a) = true) ∧
    (∀ a b : List Char,
      (keyCmp (natural_sort_key a) (natural_sort_key b)).isSome = true) ∧
    (∀ files : List (List Char),
      trySortNat files = some (insertionSortLe natLe files) ∧
      sortWithFallback trySortNat files = insertionSortLe natLe files) := by
  refine ⟨altFrom_natural_sort_key, ?_, ?_⟩
  · intro a b
    exact keyCmp_isSome_of_altFrom _ true _ (altFrom_natural_sort_key a)
      (altFrom_natural_sort_key b)
  · intro files
    refine ⟨trySortNat_eq_some files, ?_⟩
    unfold sortWithFallback
    rw [trySortNat_eq_some files]
